import Mathlib

/-!
Verification of the `serial_test` crate's coordination core against its
specification.  The Rust sources are shallowly embedded: each definition
below names the source item it translates (file and function), machine
integers become `Nat`, fallible operations (assertion failures, panics)
become `Option`/`Except`, and the concurrent per-key coordinator of
`rwlock.rs` becomes an explicit labelled transition system on its state.
-/

namespace SerialTest

/-! ## The in-process per-key coordinator (`serial_test/src/rwlock.rs`)

The state of one key's coordinator is `LockState { parallels: u32 }`
together with a `parking_lot::ReentrantMutex<()>` (`LockData.serial`).
A `ReentrantMutex` is owned by at most one thread at a time, with a
reentrancy depth; `try_lock` succeeds exactly when the mutex is unowned
or already owned by the calling thread.  We embed the mutex as the pair
`serialOwner`/`serialDepth`. -/

/-- Thread identity, as compared by `parking_lot`'s reentrant mutex. -/
abbrev ThreadId := Nat

/-- State of one key's coordinator: `LockState.parallels` plus the owner and
reentrancy depth of the `ReentrantMutex` `LockData.serial` (rwlock.rs 6-14). -/
structure LocksState where
  parallels : Nat
  serialOwner : Option ThreadId
  serialDepth : Nat
deriving DecidableEq

/-- Initial state built by `Locks::new` (rwlock.rs 38-50): `parallels = 0`,
serial mutex unowned. -/
def initLocks : LocksState := ⟨0, none, 0⟩

/-- One atomic step of the coordinator, taken with `LockData.mutex` held.
Each constructor is one successful exit of a source operation:

* `serialAcquire` — the success path of `Locks::serial` (rwlock.rs 61-88):
  requires `parallels == 0` and `serial.try_lock()` to succeed (mutex unowned
  or owned by the caller, since the mutex is reentrant); the returned
  `MutexGuardWrapper` keeps the serial mutex, raising its depth.
* `serialRelease` — `MutexGuardWrapper::drop` (rwlock.rs 30-36) releasing the
  inner `ReentrantMutexGuard`: the depth drops by one, and the owner is
  cleared when it reaches zero.
* `startParallelFast` — `Locks::start_parallel` fast path (rwlock.rs 100-104):
  `parallels > 0` is incremented without consulting the serial mutex.
* `startParallelFirst` — `Locks::start_parallel` first-entry path
  (rwlock.rs 106-113): requires `parallels == 0` and `serial.try_lock()` to
  succeed; the probe guard is dropped at the end of the `if` scope, so the
  net effect is only `parallels = 1`.  When `allowNest = false` the reentrant
  success case (caller already owns the serial mutex) is excluded, i.e. no
  thread starts a parallel section while itself inside a serial section.
* `endParallel` — `Locks::end_parallel` (rwlock.rs 123-131): asserts
  `parallels > 0` and decrements. -/
inductive LocksStep (allowNest : Bool) : LocksState → LocksState → Prop
  | serialAcquire (t : ThreadId) (s : LocksState)
      (hp : s.parallels = 0)
      (ho : s.serialOwner = none ∨ s.serialOwner = some t) :
      LocksStep allowNest s
        { s with serialOwner := some t, serialDepth := s.serialDepth + 1 }
  | serialRelease (t : ThreadId) (s : LocksState)
      (ho : s.serialOwner = some t) :
      LocksStep allowNest s
        { s with serialOwner := if s.serialDepth ≤ 1 then none else some t,
                 serialDepth := s.serialDepth - 1 }
  | startParallelFast (s : LocksState)
      (hp : 0 < s.parallels) :
      LocksStep allowNest s { s with parallels := s.parallels + 1 }
  | startParallelFirst (t : ThreadId) (s : LocksState)
      (hp : s.parallels = 0)
      (ho : s.serialOwner = none ∨ (allowNest = true ∧ s.serialOwner = some t)) :
      LocksStep allowNest s { s with parallels := 1 }
  | endParallel (s : LocksState)
      (hp : 0 < s.parallels) :
      LocksStep allowNest s { s with parallels := s.parallels - 1 }

/-- States of one key's coordinator reachable from `Locks::new`. -/
def LocksReachable (allowNest : Bool) (s : LocksState) : Prop :=
  Relation.ReflTransGen (LocksStep allowNest) initLocks s

/-- Key safety invariant of the nesting-free system: the serial mutex is
unowned, or no parallel section is active. -/
lemma noNest_invariant (s : LocksState) (h : LocksReachable false s) :
    s.serialOwner = none ∨ s.parallels = 0 := by
  induction h with
  | refl => exact Or.inl rfl
  | tail _ step ih =>
    cases step with
    | serialAcquire t s hp ho => exact Or.inr hp
    | serialRelease t s ho =>
      rcases ih with h1 | h2
      · simp [ho] at h1
      · exact Or.inr h2
    | startParallelFast s hp =>
      rcases ih with h1 | h2
      · exact Or.inl h1
      · omega
    | startParallelFirst t s hp ho =>
      rcases ho with h1 | ⟨hfalse, _⟩
      · exact Or.inl h1
      · exact absurd hfalse (by simp)
    | endParallel s hp =>
      rcases ih with h1 | h2
      · exact Or.inl h1
      · omega

/-- Reachability (with the reentrant nesting path allowed) of a state in which
one thread both owns the serial mutex and has an active parallel section: a
serial test body that itself enters `start_parallel` on the same key. -/
lemma nestedState_reachable : LocksReachable true ⟨1, some 0, 1⟩ := by
  have h1 : LocksStep true initLocks ⟨0, some 0, 1⟩ :=
    LocksStep.serialAcquire 0 initLocks rfl (Or.inl rfl)
  have h2 : LocksStep true ⟨0, some 0, 1⟩ ⟨1, some 0, 1⟩ :=
    LocksStep.startParallelFirst 0 ⟨0, some 0, 1⟩ rfl (Or.inr ⟨rfl, rfl⟩)
  exact Relation.ReflTransGen.head h1 (Relation.ReflTransGen.single h2)

/-- C1 (counterexample): in the coordinator as implemented, a state is
reachable in which a thread holds `Serial(k)` while `parallel_count(k) = 1`:
the serial owner itself calls `start_parallel`, whose `try_lock` probe
succeeds reentrantly (rwlock.rs 106-113).  This refutes "if exactly one
thread holds Serial(k) then parallel_count(k) == 0" over all reachable
states. -/
theorem serial_owner_with_parallel_reachable :
    LocksReachable true ⟨1, some 0, 1⟩ ∧
    0 < (⟨1, some 0, 1⟩ : LocksState).parallels ∧
    (⟨1, some 0, 1⟩ : LocksState).serialOwner = some 0 :=
  ⟨nestedState_reachable, Nat.zero_lt_one, rfl⟩

/-- C1 (amended): provided no thread calls `start_parallel(k)` while itself
holding `Serial(k)` (the reentrant-nesting path), every reachable state
satisfies: at most one thread holds `Serial(k)`; if a thread holds
`Serial(k)` then `parallel_count(k) == 0`; and if `parallel_count(k) > 0`
then no thread holds `Serial(k)`. -/
theorem serial_mutual_exclusion_no_nesting (s : LocksState)
    (h : LocksReachable false s) :
    (∀ t u, s.serialOwner = some t → s.serialOwner = some u → t = u) ∧
    (s.serialOwner ≠ none → s.parallels = 0) ∧
    (0 < s.parallels → s.serialOwner = none) := by
  refine ⟨fun t u ht hu => ?_, fun ho => ?_, fun hp => ?_⟩
  · rw [ht] at hu
    exact Option.some_injective _ hu
  · rcases noNest_invariant s h with h1 | h2
    · exact absurd h1 ho
    · exact h2
  · rcases noNest_invariant s h with h1 | h2
    · exact h1
    · omega

/-- Witness for the amended C1, at the reachable state obtained by a single
successful `Locks::serial` acquisition by thread 0. -/
theorem serial_mutual_exclusion_no_nesting_witness :
    ((⟨0, some 0, 1⟩ : LocksState).serialOwner ≠ none →
      (⟨0, some 0, 1⟩ : LocksState).parallels = 0) ∧
    (0 < (⟨0, some 0, 1⟩ : LocksState).parallels →
      (⟨0, some 0, 1⟩ : LocksState).serialOwner = none) := by
  have h : LocksReachable false ⟨0, some 0, 1⟩ :=
    Relation.ReflTransGen.single
      (LocksStep.serialAcquire 0 initLocks rfl (Or.inl rfl))
  exact ⟨(serial_mutual_exclusion_no_nesting _ h).2.1,
         (serial_mutual_exclusion_no_nesting _ h).2.2⟩

/-- C4 (counterexample): the claimed biconditional "`serial_owner` is set if
and only if `parallel_count == 0`, in every state including the idle state"
fails in both directions: the idle state `Locks::new` has
`parallel_count == 0` with no serial owner, and with reentrant nesting a
state with a serial owner and `parallel_count == 1` is reachable. -/
theorem serial_iff_parallel_zero_fails :
    (LocksReachable true initLocks ∧ initLocks.parallels = 0 ∧
      initLocks.serialOwner = none) ∧
    (LocksReachable true ⟨1, some 0, 1⟩ ∧
      (⟨1, some 0, 1⟩ : LocksState).serialOwner ≠ none ∧
      ¬ (⟨1, some 0, 1⟩ : LocksState).parallels = 0) :=
  ⟨⟨Relation.ReflTransGen.refl, rfl, rfl⟩,
   ⟨nestedState_reachable, by simp [LocksState.serialOwner], by simp [LocksState.parallels]⟩⟩

/-- C4 (amended): one direction of the claimed biconditional holds on every
reachable state of the nesting-free system: if `serial_owner` is set then
`parallel_count == 0`.  The converse fails in the idle state, and with
reentrant nesting even this direction fails. -/
theorem serial_owner_implies_parallel_zero (s : LocksState)
    (h : LocksReachable false s) (ho : s.serialOwner.isSome = true) :
    s.parallels = 0 := by
  rcases noNest_invariant s h with h1 | h2
  · rw [h1] at ho
    simp at ho
  · exact h2

/-- Witness for the amended C4 at the state reached by one serial
acquisition. -/
theorem serial_owner_implies_parallel_zero_witness :
    (⟨0, some 0, 1⟩ : LocksState).parallels = 0 := by
  have h : LocksReachable false ⟨0, some 0, 1⟩ :=
    Relation.ReflTransGen.single
      (LocksStep.serialAcquire 0 initLocks rfl (Or.inl rfl))
  exact serial_owner_implies_parallel_zero ⟨0, some 0, 1⟩ h rfl

/-! ## Waiter notification on release (`rwlock.rs` 30-36, 123-131)

Both release paths call `Condvar::notify_one`, which wakes at most one
waiting thread.  We model the condition-variable wait queue as a list of
thread identities; `notify_one` wakes its head and leaves the rest
blocked (they are woken at the latest by their own 1-second timed
re-check, `wait_for`, rwlock.rs 84-86 and 117-119). -/

/-- Semantics of `parking_lot::Condvar::notify_one` on a wait queue:
returns the woken threads (at most one) and the threads left waiting. -/
def notifyOne (waiters : List ThreadId) : List ThreadId × List ThreadId :=
  (waiters.take 1, waiters.drop 1)

/-- Embeds `MutexGuardWrapper::drop` (rwlock.rs 30-36): the end of a serial
section calls `self.locks.arc.condvar.notify_one()`. -/
def serialGuardDropWake (waiters : List ThreadId) : List ThreadId × List ThreadId :=
  notifyOne waiters

/-- Embeds `Locks::end_parallel` (rwlock.rs 123-131): assert
`parallels > 0` (`none` on failure), decrement, then
`condvar.notify_one()` — the notification happens at every resulting
count, and wakes at most one waiter. -/
def endParallelRelease (parallels : Nat) (waiters : List ThreadId) :
    Option (Nat × (List ThreadId × List ThreadId)) :=
  if parallels = 0 then none
  else some (parallels - 1, notifyOne waiters)

/-- C7 (counterexample): with two waiters (threads 7 and 8) blocked on a
key's condition variable, dropping the serial guard wakes only thread 7
and leaves thread 8 waiting, and an `end_parallel` that brings the count
to zero does the same — both releases call `notify_one`, not
`notify_all`, refuting "wakes all waiters". -/
theorem release_wakes_one_waiter_not_all :
    serialGuardDropWake [7, 8] = ([7], [8]) ∧
    ([8] : List ThreadId) ≠ [] ∧
    endParallelRelease 1 [7, 8] = some (0, ([7], [8])) := by
  refine ⟨rfl, by simp, rfl⟩

/-- C7 (amended): every release operation on a key wakes at most one waiter
blocked on that key's condition variable: dropping the serial guard wakes
the first waiter only, and every `end_parallel` — at any resulting count,
not only at zero — likewise wakes at most one waiter; `end_parallel` at
count zero is an assertion failure.  Remaining waiters rely on their
1-second timed re-check. -/
theorem release_wakes_at_most_one (ws : List ThreadId) (p : Nat) :
    (serialGuardDropWake ws).1.length ≤ 1 ∧
    (serialGuardDropWake ws).2 = ws.drop 1 ∧
    endParallelRelease (p + 1) ws = some (p, (ws.take 1, ws.drop 1)) ∧
    endParallelRelease 0 ws = none := by
  refine ⟨?_, rfl, ?_, rfl⟩
  · simp [serialGuardDropWake, notifyOne]
  · simp [endParallelRelease, notifyOne]

/-! ## Canonical key ordering (`serial_test_derive/src/lib.rs`, `get_config`)

`get_config` collects the attribute's key arguments into `raw_args`,
pushes the empty string if none were given, and calls
`raw_args.sort()` — Rust's stable sort on `String`, i.e. lexicographic
order on the UTF-8 bytes.  We embed strings' byte order through their
scalar values (UTF-8 byte order coincides with scalar-value order) and
the stable sort as insertion sort, which produces the same list as any
stable sort. -/

/-- Lexicographic order on byte sequences, as in Rust's `Ord for String`. -/
def bytesLe : List Nat → List Nat → Bool
  | [], _ => true
  | _ :: _, [] => false
  | a :: as, b :: bs =>
    if a < b then true else if b < a then false else bytesLe as bs

/-- Order on keys used by `raw_args.sort()`: lexicographic on the string's
scalar values. -/
def strLe (a b : String) : Bool :=
  bytesLe (a.data.map Char.toNat) (b.data.map Char.toNat)

lemma bytesLe_total (a b : List Nat) : bytesLe a b = true ∨ bytesLe b a = true := by
  induction a generalizing b with
  | nil => exact Or.inl rfl
  | cons x xs ih =>
    cases b with
    | nil => exact Or.inr rfl
    | cons y ys =>
      by_cases hxy : x < y
      · left
        simp [bytesLe, hxy]
      · by_cases hyx : y < x
        · right
          simp [bytesLe, hyx]
        · rcases ih ys with h | h
          · left
            simp [bytesLe, hxy, hyx, h]
          · right
            simp [bytesLe, hxy, hyx, h]

lemma strLe_total (a b : String) : strLe a b = true ∨ strLe b a = true :=
  bytesLe_total _ _

/-- Insertion into a sorted list, keeping stability (equal keys keep their
relative order, as Rust's stable `sort` does). -/
def insertKey (a : String) : List String → List String
  | [] => [a]
  | b :: bs => if strLe a b then a :: b :: bs else b :: insertKey a bs

/-- Stable sort of the raw key arguments, embedding `raw_args.sort()`
(serial_test_derive lib.rs 283). -/
def sortKeys : List String → List String
  | [] => []
  | a :: as => insertKey a (sortKeys as)

/-- Boolean sortedness with respect to `strLe`. -/
def keysSorted : List String → Bool
  | [] => true
  | [_] => true
  | a :: b :: bs => strLe a b && keysSorted (b :: bs)

lemma keysSorted_insertKey (a : String) (l : List String)
    (h : keysSorted l = true) : keysSorted (insertKey a l) = true := by
  induction l with
  | nil => rfl
  | cons b bs ih =>
    by_cases hab : strLe a b = true
    · simp [insertKey, hab, keysSorted, h]
    · have hba : strLe b a = true := (strLe_total a b).resolve_left hab
      have hbs : keysSorted bs = true := by
        cases bs with
        | nil => rfl
        | cons c cs =>
          simp [keysSorted] at h
          exact h.2
      have hins := ih hbs
      simp only [insertKey, hab, if_false]
      cases hbsEq : insertKey a bs with
      | nil => rfl
      | cons c cs =>
        have hbc : strLe b c = true := by
          cases bs with
          | nil =>
            simp [insertKey] at hbsEq
            rw [← hbsEq.1]
            exact hba
          | cons d ds =>
            simp [keysSorted] at h
            by_cases had : strLe a d = true
            · simp [insertKey, had] at hbsEq
              rw [← hbsEq.1]
              exact hba
            · simp [insertKey, had] at hbsEq
              rw [← hbsEq.1]
              exact h.1
        rw [hbsEq] at hins
        simp [keysSorted, hbc, hins]

lemma keysSorted_sortKeys (l : List String) : keysSorted (sortKeys l) = true := by
  induction l with
  | nil => rfl
  | cons a as ih => exact keysSorted_insertKey a (sortKeys as) ih

/-- Embeds `get_config` (serial_test_derive lib.rs 279-288) restricted to the
key list: if no keys were supplied, the single empty-string key is used;
the keys are then sorted into canonical order before being handed to the
core entry points. -/
def getConfigNames (rawArgs : List String) : List String :=
  sortKeys (if rawArgs.isEmpty then [""] else rawArgs)

/-! ## Acquisition traces of the entry points

Each serial/parallel entry point is straight-line code; we embed it as
the sequence of lock events it performs, with `Ev.run` marking the start
of the protected work (the wrapped function or awaited future). -/

/-- Lock events performed by an entry point. -/
inductive Ev where
  | acqSerial (k : String)
  | relSerial (k : String)
  | startPar (k : String)
  | endPar (k : String)
  | run
deriving DecidableEq

/-- Embeds Rust's lazy `Iterator::map` adapter: constructing it runs no
closure; only consuming it (`collect`, iteration) would. -/
structure LazyMap (α : Type) where
  base : List α
  eff : α → Ev

/-- Events produced if a lazy map adapter is consumed. -/
def LazyMap.consumed {α : Type} (m : LazyMap α) : List Ev :=
  m.base.map m.eff

/-- Events produced by a lazy map adapter that is constructed, bound to a
variable, and dropped without ever being consumed: none — dropping the
adapter drops only the captured closure and base iterator. -/
def LazyMap.unconsumed {α : Type} (_ : LazyMap α) : List Ev :=
  []

/-- Embeds the `core_internal!` macro body (serial_code_lock.rs 6-23), the
shared engine of `local_serial_core` and `local_serial_core_with_return`:
lock the first name's mutex; with the guard held, recurse on the remaining
names if any, else run the work; the guard drops when the block exits. -/
def coreInternalTrace (n : String) (rest : List String) : List Ev :=
  Ev.acqSerial n ::
    ((match rest with
      | [] => [Ev.run]
      | m :: ms => coreInternalTrace m ms) ++ [Ev.relSerial n])

/-- Embeds `local_serial_core` (serial_code_lock.rs 37-41): panics (`none`)
on an empty name list (`names.first().expect`). -/
def localSerialCoreTrace : List String → Option (List Ev)
  | [] => none
  | n :: rest => some (coreInternalTrace n rest)

/-- Embeds `local_async_serial_core_with_return` (serial_code_lock.rs
45-59): the mutex of every name is looked up, but the guard expression
`let _guards = unlocks.iter().map(|unlock| unlock.lock());` only
constructs a lazy map adapter that is never consumed, so `lock()` is
never called and the future runs with no serial lock held. -/
def localAsyncSerialCoreWithReturnTrace (names : List String) : List Ev :=
  (LazyMap.mk names Ev.acqSerial).unconsumed ++ [Ev.run]

/-- Embeds `local_async_serial_core` (serial_code_lock.rs 63-76): locks only
`names.first()`, holds it across the awaited future, and drops it after;
panics (`none`) on an empty list. -/
def localAsyncSerialCoreTrace : List String → Option (List Ev)
  | [] => none
  | n :: _ => some [Ev.acqSerial n, Ev.run, Ev.relSerial n]

/-- Embeds `local_parallel_core` (parallel_code_lock.rs 42-52):
`start_parallel` on every name front-to-back, run the work, then
`end_parallel` on every name front-to-back. -/
def localParallelTrace (names : List String) : List Ev :=
  names.map Ev.startPar ++ [Ev.run] ++ names.map Ev.endPar

/-- Embeds `fs_serial_core` (serial_file_lock.rs 6-14): `get_locks` takes
each name's exclusive file lock front-to-back (`Lock::new`),
`start_serial` keeps holding them, the work runs, and
`locks.into_iter().for_each(end_serial)` unlocks front-to-back. -/
def fsSerialTrace (names : List String) : List Ev :=
  names.map Ev.acqSerial ++ [Ev.run] ++ names.map Ev.relSerial

/-- Serial locks held at the moment the protected work starts: scan the
trace up to the first `run`, collecting acquisitions and dropping
releases; `none` if the work never runs. -/
def heldAtRun : List Ev → List String → Option (List String)
  | [], _ => none
  | Ev.run :: _, held => some held
  | Ev.acqSerial k :: tr, held => heldAtRun tr (held ++ [k])
  | Ev.relSerial k :: tr, held => heldAtRun tr (held.erase k)
  | Ev.startPar _ :: tr, held => heldAtRun tr held
  | Ev.endPar _ :: tr, held => heldAtRun tr held

/-- Order of serial-lock acquisitions in a trace. -/
def serialAcqOrder (tr : List Ev) : List String :=
  tr.filterMap fun e =>
    match e with
    | Ev.acqSerial k => some k
    | _ => none

/-- Order of serial-lock releases in a trace. -/
def serialRelOrder (tr : List Ev) : List String :=
  tr.filterMap fun e =>
    match e with
    | Ev.relSerial k => some k
    | _ => none

/-- Order of parallel-section starts in a trace. -/
def parAcqOrder (tr : List Ev) : List String :=
  tr.filterMap fun e =>
    match e with
    | Ev.startPar k => some k
    | _ => none

/-- Order of parallel-section ends in a trace. -/
def parRelOrder (tr : List Ev) : List String :=
  tr.filterMap fun e =>
    match e with
    | Ev.endPar k => some k
    | _ => none

/-- C2 (code bug): the sync serial core does hold every requested key when
the work starts, but `local_async_serial_core_with_return` binds its
guards to a lazy, never-consumed map adapter, so its future runs with NO
serial lock held — and `local_async_serial_core` locks only the first of
several keys.  Evaluated at the failing input `["a", "b"]`. -/
theorem async_serial_with_return_runs_without_locks :
    heldAtRun (coreInternalTrace "a" ["b"]) [] = some ["a", "b"] ∧
    localAsyncSerialCoreWithReturnTrace ["a", "b"] = [Ev.run] ∧
    heldAtRun (localAsyncSerialCoreWithReturnTrace ["a", "b"]) [] = some [] ∧
    localAsyncSerialCoreTrace ["a", "b"] =
      some [Ev.acqSerial "a", Ev.run, Ev.relSerial "a"] ∧
    heldAtRun [Ev.acqSerial "a", Ev.run, Ev.relSerial "a"] [] = some ["a"] := by
  decide

lemma filterMap_map_eq_self (p : Ev → Option String) (f : String → Ev)
    (h : ∀ k, p (f k) = some k) (l : List String) :
    List.filterMap p (l.map f) = l := by
  induction l with
  | nil => rfl
  | cons x xs ih => simp [h, ih]

lemma filterMap_map_eq_nil (p : Ev → Option String) (f : String → Ev)
    (h : ∀ k, p (f k) = none) (l : List String) :
    List.filterMap p (l.map f) = [] := by
  induction l with
  | nil => rfl
  | cons x xs ih => simp [h, ih]

lemma serialAcqOrder_coreInternal (n : String) (rest : List String) :
    serialAcqOrder (coreInternalTrace n rest) = n :: rest := by
  induction rest generalizing n with
  | nil => rfl
  | cons m ms ih =>
    simp only [coreInternalTrace, serialAcqOrder] at *
    simp [List.filterMap_append, ih]

lemma serialRelOrder_coreInternal (n : String) (rest : List String) :
    serialRelOrder (coreInternalTrace n rest) = (n :: rest).reverse := by
  induction rest generalizing n with
  | nil => rfl
  | cons m ms ih =>
    simp only [coreInternalTrace, serialRelOrder] at *
    simp [List.filterMap_append, ih]

lemma parAcqOrder_localParallel (ns : List String) :
    parAcqOrder (localParallelTrace ns) = ns := by
  simp only [parAcqOrder, localParallelTrace, List.filterMap_append]
  rw [filterMap_map_eq_self _ Ev.startPar (fun k => rfl) ns,
      filterMap_map_eq_nil _ Ev.endPar (fun k => rfl) ns]
  simp

lemma parRelOrder_localParallel (ns : List String) :
    parRelOrder (localParallelTrace ns) = ns := by
  simp only [parRelOrder, localParallelTrace, List.filterMap_append]
  rw [filterMap_map_eq_nil _ Ev.startPar (fun k => rfl) ns,
      filterMap_map_eq_self _ Ev.endPar (fun k => rfl) ns]
  simp

lemma serialAcqOrder_fsSerial (ns : List String) :
    serialAcqOrder (fsSerialTrace ns) = ns := by
  simp only [serialAcqOrder, fsSerialTrace, List.filterMap_append]
  rw [filterMap_map_eq_self _ Ev.acqSerial (fun k => rfl) ns,
      filterMap_map_eq_nil _ Ev.relSerial (fun k => rfl) ns]
  simp

lemma serialRelOrder_fsSerial (ns : List String) :
    serialRelOrder (fsSerialTrace ns) = ns := by
  simp only [serialRelOrder, fsSerialTrace, List.filterMap_append]
  rw [filterMap_map_eq_nil _ Ev.acqSerial (fun k => rfl) ns,
      filterMap_map_eq_self _ Ev.relSerial (fun k => rfl) ns]
  simp

/-- C5 (counterexample): for the key list `["a", "b"]` the file-variant
serial core acquires in order a, b but also releases in order a, b —
`locks.into_iter().for_each(|lock| lock.end_serial())` iterates
front-to-back — which is not the reverse of the acquisition order; the
in-process parallel core likewise releases front-to-back. -/
theorem fs_serial_releases_in_forward_order :
    serialAcqOrder (fsSerialTrace ["a", "b"]) = ["a", "b"] ∧
    serialRelOrder (fsSerialTrace ["a", "b"]) = ["a", "b"] ∧
    (["a", "b"] : List String) ≠ (["a", "b"] : List String).reverse ∧
    parAcqOrder (localParallelTrace ["a", "b"]) = ["a", "b"] ∧
    parRelOrder (localParallelTrace ["a", "b"]) = ["a", "b"] := by
  decide

/-- C5 (amended): the requested keys are sorted into a single canonical
(lexicographic) order by `get_config` before any acquisition begins, and
every variant acquires strictly in the order of the list it is given;
release order, however, is the reverse of acquisition only in the
in-process serial path (nested guard scopes) — the in-process parallel
path and the file-based serial path release in forward acquisition
order. -/
theorem keys_sorted_and_release_orders (args : List String) (n : String)
    (rest ns : List String) :
    keysSorted (getConfigNames args) = true ∧
    getConfigNames [] = [""] ∧
    serialAcqOrder (coreInternalTrace n rest) = n :: rest ∧
    serialRelOrder (coreInternalTrace n rest) = (n :: rest).reverse ∧
    parAcqOrder (localParallelTrace ns) = ns ∧
    parRelOrder (localParallelTrace ns) = ns ∧
    serialAcqOrder (fsSerialTrace ns) = ns ∧
    serialRelOrder (fsSerialTrace ns) = ns := by
  exact ⟨keysSorted_sortKeys _, rfl, serialAcqOrder_coreInternal n rest,
    serialRelOrder_coreInternal n rest, parAcqOrder_localParallel ns,
    parRelOrder_localParallel ns, serialAcqOrder_fsSerial ns,
    serialRelOrder_fsSerial ns⟩

/-! ## Panic propagation and unconditional release

The parallel and file-based cores wrap the protected work in
`panic::catch_unwind`, perform every release, and only then
`panic::resume_unwind` the caught payload.  The work's outcome is
embedded as `Except P Unit`: `Except.error p` is a panic with payload
`p`.  Per-key in-process parallel counts are a function
`String → Nat`; the file variant's persisted sidecar counter for one
path is a `Nat`. -/

/-- Effect of `Locks::start_parallel` on the per-key parallel counts (the
successful exit: the count of `k` is incremented). -/
def startParallelSt (s : String → Nat) (k : String) : String → Nat :=
  fun q => if q = k then s q + 1 else s q

/-- Effect of `Locks::end_parallel` (rwlock.rs 123-131): `assert!(parallels
> 0)` — `none` models the assertion failure — then decrement. -/
def endParallelSt (s : String → Nat) (k : String) : Option (String → Nat) :=
  if s k = 0 then none
  else some (fun q => if q = k then s q - 1 else s q)

/-- Embeds `local_parallel_core` (parallel_code_lock.rs 42-52):
`start_parallel` on every name's lock, `panic::catch_unwind` around the
work, `end_parallel` on every name's lock, then return the result or
`panic::resume_unwind` the caught payload unchanged. -/
def localParallelCore {P : Type} (names : List String) (s : String → Nat)
    (work : Except P Unit) : Option ((String → Nat) × Except P Unit) :=
  let s1 := names.foldl startParallelSt s
  (names.foldlM endParallelSt s1).map fun s2 => (s2, work)

/-- Effect of `Lock::start_parallel` (file_lock.rs 131-135) on the persisted
sidecar counter: increment and write back (the file lock is held only
transiently around the read-increment-write). -/
def fsStartParallel (c : Nat) : Nat := c + 1

/-- Effect of `Lock::end_parallel` (file_lock.rs 137-142):
`assert!(self.parallel_count > 0)` — `none` on failure — then decrement
and write back. -/
def fsEndParallel (c : Nat) : Option Nat :=
  if c = 0 then none else some (c - 1)

/-- Embeds `fs_parallel_core` (parallel_file_lock.rs 9-23): a fresh `Lock`
increments the persisted counter, `panic::catch_unwind` runs the work, a
second fresh `Lock` re-reads and decrements the counter, and the caught
payload is re-raised unchanged. -/
def fsParallelCore {P : Type} (c : Nat) (work : Except P Unit) :
    Option (Nat × Except P Unit) :=
  (fsEndParallel (fsStartParallel c)).map fun c2 => (c2, work)

/-- Embeds `fs_serial_core` (serial_file_lock.rs 6-14): acquire every
name's file lock, `panic::catch_unwind` the work, `end_serial` every
lock, then `match res` — `Ok` returns the value, `Err`
`panic::resume_unwind`s the payload unchanged. -/
def fsSerialCoreRun {P : Type} (names : List String) (work : Except P Unit) :
    List Ev × Except P Unit :=
  (fsSerialTrace names,
    match work with
    | Except.ok u => Except.ok u
    | Except.error e => Except.error e)

lemma startParallel_fold_apply (l : List String) (s : String → Nat)
    (k : String) : (l.foldl startParallelSt s) k = s k + l.count k := by
  induction l generalizing s with
  | nil => simp
  | cons x xs ih =>
    rw [List.foldl_cons, ih]
    show (if k = x then s k + 1 else s k) + xs.count k = s k + (x :: xs).count k
    by_cases h : k = x
    · rw [if_pos h, h, List.count_cons_self]
      omega
    · rw [if_neg h, List.count_cons_of_ne h]

lemma endParallel_foldM (l : List String) (s base : String → Nat)
    (h : ∀ k, s k = base k + l.count k) :
    l.foldlM endParallelSt s = some base := by
  induction l generalizing s with
  | nil =>
    have hs : s = base := funext fun k => by simpa using h k
    simp [hs]
  | cons x xs ih =>
    have hx : ¬ s x = 0 := by
      have hxx := h x
      rw [List.count_cons_self] at hxx
      omega
    simp only [List.foldlM_cons, endParallelSt, if_neg hx, Option.some_bind]
    apply ih
    intro k
    by_cases hkx : k = x
    · have hk := h k
      rw [hkx, List.count_cons_self] at hk
      show (if k = x then s k - 1 else s k) = base k + xs.count k
      rw [if_pos hkx, hkx]
      omega
    · have hk := h k
      rw [List.count_cons_of_ne hkx] at hk
      show (if k = x then s k - 1 else s k) = base k + xs.count k
      rw [if_neg hkx]
      omega

/-- C3: for every key list and protected work that panics with payload `p`
while the locks are held, the in-process parallel core, the file-variant
parallel core and the file-variant serial core all release what they
acquired — every per-key count returns to its pre-acquisition value, the
file release trace matches the acquisition trace key for key — and then
re-raise the original payload `p` unchanged. -/
theorem panic_releases_then_rethrows_payload {P : Type} (names : List String)
    (s : String → Nat) (c : Nat) (p : P) :
    localParallelCore names s (Except.error p) = some (s, Except.error p) ∧
    fsParallelCore c (Except.error p) = some (c, Except.error p) ∧
    fsSerialCoreRun names (Except.error p) =
      (fsSerialTrace names, Except.error p) ∧
    serialRelOrder (fsSerialTrace names) = serialAcqOrder (fsSerialTrace names) := by
  refine ⟨?_, ?_, rfl, ?_⟩
  · show (names.foldlM endParallelSt (names.foldl startParallelSt s)).map _ = _
    rw [endParallel_foldM names _ s (fun k => startParallel_fold_apply names s k)]
    rfl
  · simp [fsParallelCore, fsStartParallel, fsEndParallel]
  · rw [serialRelOrder_fsSerial, serialAcqOrder_fsSerial]

/-! ## The sidecar counter file (`file_lock.rs`)

The persisted parallel-participant count lives in `<path>-count` as the
four native-endian bytes of a `u32`.  A file is `none` when missing or
unopenable, otherwise its byte contents. -/

/-- Embeds `u32::to_ne_bytes`: the four bytes of `c`, least significant
first (read and write use the same native endianness, so the layout
choice cancels in the round trip). -/
def u32ToNeBytes (c : Nat) : List Nat :=
  [c % 256, c / 256 % 256, c / 256 ^ 2 % 256, c / 256 ^ 3 % 256]

/-- Embeds `u32::from_ne_bytes` on four bytes. -/
def u32FromNeBytes (b0 b1 b2 b3 : Nat) : Nat :=
  b0 + 256 * b1 + 256 ^ 2 * b2 + 256 ^ 3 * b3

/-- Embeds `Lock::read_parallel_count` (file_lock.rs 25-44): opening a
missing or unopenable `<path>-count` yields 0; `read_exact` of 4 bytes
fails on a shorter file, yielding 0; otherwise the first four bytes are
decoded with `from_ne_bytes`. -/
def readParallelCount (file : Option (List Nat)) : Nat :=
  match file with
  | none => 0
  | some (b0 :: b1 :: b2 :: b3 :: _) => u32FromNeBytes b0 b1 b2 b3
  | some _ => 0

/-- Embeds `Lock::write_parallel` (file_lock.rs 126-129): `File::create`
truncates `<path>-count` and writes exactly the four native-endian bytes
of `parallel_count`. -/
def writeParallel (c : Nat) : Option (List Nat) :=
  some (u32ToNeBytes c)

/-- C8: persisting any `u32` value `c` to the sidecar counter file writes
exactly 4 bytes and reading it back returns exactly `c`; a missing or
unopenable sidecar file reads as 0, and so does any file holding fewer
than 4 bytes. -/
theorem counter_file_roundtrip (c : Nat) (hc : c < 2 ^ 32) :
    readParallelCount (writeParallel c) = c ∧
    (u32ToNeBytes c).length = 4 ∧
    readParallelCount none = 0 ∧
    (∀ bs : List Nat, bs.length < 4 → readParallelCount (some bs) = 0) := by
  refine ⟨?_, rfl, rfl, ?_⟩
  · show u32FromNeBytes (c % 256) (c / 256 % 256) (c / 256 ^ 2 % 256)
      (c / 256 ^ 3 % 256) = c
    unfold u32FromNeBytes
    omega
  · intro bs hbs
    rcases bs with _ | ⟨b0, _ | ⟨b1, _ | ⟨b2, _ | ⟨b3, rest⟩⟩⟩⟩
    · rfl
    · rfl
    · rfl
    · rfl
    · simp at hbs
      omega

/-- Witness for C8 at the concrete count 3000000000 and a 2-byte file. -/
theorem counter_file_roundtrip_witness :
    readParallelCount (writeParallel 3000000000) = 3000000000 ∧
    readParallelCount (some [7, 7]) = 0 :=
  ⟨(counter_file_roundtrip 3000000000 (by norm_num)).1,
   (counter_file_roundtrip 3000000000 (by norm_num)).2.2.2 [7, 7] (by norm_num)⟩

/-! ## The file-variant serial acquisition loop (`file_lock.rs` 97-114) -/

/-- Observable actions of `Lock::start_serial`. -/
inductive FileEv where
  | unlock
  | sleep50
  | lock
  | readCount (n : Nat)
deriving DecidableEq

/-- One iteration of the `start_serial` retry loop (file_lock.rs 104-112):
release the file lock, sleep 50 ms, re-acquire the lock, re-read the
persisted counter (observing `c`). -/
def retryBlock (c : Nat) : List FileEv :=
  [FileEv.unlock, FileEv.sleep50, FileEv.lock, FileEv.readCount c]

/-- Embeds the `Lock::start_serial` loop (file_lock.rs 97-114).  `cur` is
the cached `parallel_count`, read while the lock was held (initially by
`Lock::new`); `future` is the stream of counter values successive
re-reads will observe.  Returns the action trace and the final counter
value, or `none` when no zero is ever observed (the loop does not
terminate within the stream). -/
def startSerialGo : Nat → List Nat → Option (List FileEv × Nat)
  | cur, future =>
    if cur = 0 then some ([], cur)
    else
      match future with
      | [] => none
      | c :: rest =>
        (startSerialGo c rest).map fun pr => (retryBlock c ++ pr.1, pr.2)

/-- Whether the file lock is held after a trace, given whether it was held
before. -/
def lockHeldAfter : Bool → List FileEv → Bool
  | held, [] => held
  | _, FileEv.unlock :: tr => lockHeldAfter false tr
  | _, FileEv.lock :: tr => lockHeldAfter true tr
  | held, FileEv.sleep50 :: tr => lockHeldAfter held tr
  | held, FileEv.readCount _ :: tr => lockHeldAfter held tr

lemma lockHeldAfter_append (b : Bool) (xs ys : List FileEv) :
    lockHeldAfter b (xs ++ ys) = lockHeldAfter (lockHeldAfter b xs) ys := by
  induction xs generalizing b with
  | nil => rfl
  | cons x tr ih =>
    cases x <;> simp [lockHeldAfter, ih]

/-- C6: `start_serial` returns only in a state where the exclusive file
lock is held and the last counter read is zero; every nonzero
observation triggers exactly one release–sleep–reacquire–reread block,
and these blocks repeat until a zero is read: the trace is the
concatenation of retry blocks over some consumed prefix of the
observation stream, all values before the final one being nonzero. -/
theorem startSerial_holds_lock_and_zero_count (cur : Nat) (fut : List Nat)
    (tr : List FileEv) (fin : Nat)
    (h : startSerialGo cur fut = some (tr, fin)) :
    fin = 0 ∧ lockHeldAfter true tr = true ∧
    ∃ cs rest, fut = cs ++ rest ∧ tr = (cs.map retryBlock).flatten ∧
      (cur :: cs).getLast? = some fin ∧
      ∀ x ∈ (cur :: cs).dropLast, x ≠ 0 := by
  induction fut generalizing cur tr with
  | nil =>
    rw [startSerialGo] at h
    by_cases hc : cur = 0
    · rw [if_pos hc] at h
      simp only [Option.some.injEq, Prod.mk.injEq] at h
      obtain ⟨htr, hfin⟩ := h
      subst htr
      subst hfin
      exact ⟨hc, rfl, [], [], rfl, rfl, by simp, by simp⟩
    · rw [if_neg hc] at h
      simp at h
  | cons c rest ih =>
    rw [startSerialGo] at h
    by_cases hc : cur = 0
    · rw [if_pos hc] at h
      simp only [Option.some.injEq, Prod.mk.injEq] at h
      obtain ⟨htr, hfin⟩ := h
      subst htr
      subst hfin
      exact ⟨hc, rfl, [], c :: rest, rfl, rfl, by simp, by simp⟩
    · rw [if_neg hc] at h
      cases hmap : startSerialGo c rest with
      | none =>
        rw [hmap] at h
        simp at h
      | some pr =>
        obtain ⟨tr2, fin2⟩ := pr
        rw [hmap] at h
        simp only [Option.map_some', Option.some.injEq, Prod.mk.injEq] at h
        obtain ⟨htr, hfin⟩ := h
        subst hfin
        obtain ⟨hfin0, hheld, cs', rest2, hsplit, htr2, hlast, hnz⟩ :=
          ih c tr2 hmap
        refine ⟨hfin0, ?_, c :: cs', rest2,
          by rw [hsplit, List.cons_append], ?_, ?_, ?_⟩
        · rw [← htr, lockHeldAfter_append]
          exact hheld
        · rw [← htr, htr2]
          simp
        · rw [List.getLast?_cons_cons]
          exact hlast
        · intro x hx
          rw [show (cur :: c :: cs').dropLast = cur :: (c :: cs').dropLast
            from rfl] at hx
          rcases List.mem_cons.mp hx with h1 | h2
          · rw [h1]
            exact hc
          · exact hnz x h2

/-- Witness for C6: starting with cached count 2 and re-reads observing 1
then 0, `start_serial` performs two retry blocks, ends holding the lock,
and returns at counter 0. -/
theorem startSerial_holds_lock_and_zero_count_witness :
    lockHeldAfter true (retryBlock 1 ++ retryBlock 0) = true :=
  (startSerial_holds_lock_and_zero_count 2 [1, 0]
    (retryBlock 1 ++ retryBlock 0) 0 rfl).2.1

/-! ## The is-locked-serially introspection (C9)

The in-process variant asks the reentrant mutex whether the *current
thread* owns it; the file variant probes the advisory lock with
`try_lock`, which only reveals whether *anybody* holds it. -/

/-- Process identity for the advisory file lock. -/
abbrev ProcId := Nat

/-- Embeds `Locks::is_locked_by_current_thread` (rwlock.rs 57-59), i.e.
`ReentrantMutex::is_owned_by_current_thread`: true iff the serial
mutex's owner is the calling thread. -/
def isLockedByCurrentThread (owner : Option ThreadId) (current : ThreadId) :
    Bool :=
  match owner with
  | some t => t == current
  | none => false

/-- Embeds `fslock`'s advisory exclusive `try_lock` on a fresh handle: it
succeeds iff nobody currently holds the lock — a fresh handle conflicts
even with a holder in the caller's own process, as the crate's own
`assert_serially_locked_in_different_thread` test relies on. -/
def tryLockFile (holder : Option ProcId) : Bool :=
  holder.isNone

/-- Embeds `Lock::is_locked` (file_lock.rs 74-95): `try_lock` the lock
file; on success unlock again and report false, otherwise report true. -/
def lockIsLocked (holder : Option ProcId) : Bool :=
  if tryLockFile holder then false else true

/-- Embeds `is_locked_file_serially` (file_lock.rs 233-240): resolve the
explicit path or the default path derived from the (optional) name, then
`Lock::is_locked` on it — the caller's identity is never consulted. -/
def isLockedFileSerially (holder : Option ProcId) : Bool :=
  lockIsLocked holder

/-- C9 (counterexample): with process 1 holding the file lock, a query from
process 0 — which holds nothing — still gets `true` from
`is_locked_file_serially`: the file variant reports "some process holds
the lock", not "the current logical caller holds it", unlike the
in-process variant, which correctly answers `false` for a non-owner. -/
theorem file_is_locked_true_for_foreign_holder :
    isLockedFileSerially (some 1) = true ∧
    some 1 ≠ some (0 : ProcId) ∧
    isLockedByCurrentThread (some 1) 0 = false := by
  decide

/-- C9 (amended): the in-process `is_locked_serially` introspection returns
true iff the current thread is the serial owner, but the file-variant
`is_locked_file_serially` returns true iff any process at all holds the
advisory lock for the resolved path, regardless of the caller. -/
theorem is_locked_queries_semantics (owner : Option ThreadId) (t : ThreadId)
    (holder : Option ProcId) :
    (isLockedByCurrentThread owner t = true ↔ owner = some t) ∧
    (isLockedFileSerially holder = true ↔ holder.isSome = true) := by
  constructor
  · cases owner with
    | none => simp [isLockedByCurrentThread]
    | some u =>
      simp only [isLockedByCurrentThread, beq_iff_eq, Option.some.injEq]
  · cases holder with
    | none => simp [isLockedFileSerially, lockIsLocked, tryLockFile]
    | some p => simp [isLockedFileSerially, lockIsLocked, tryLockFile]

/-! ## The registry's bounded structural locking (`code_lock.rs`)

`MAX_WAIT` is a single global duration, defaulting to
`Duration::from_secs(60)`; `set_max_wait` replaces it.  `check_new_key`
takes the registry's read lock (and, for an unseen key, its write lock)
with `try_read_recursive_for(wait_duration())` /
`try_write_for(wait_duration())` and `.expect`s the result: exceeding the
bound panics.  Durations are embedded in milliseconds; a structural lock
that would become available `avail` ms from now is obtained within a
timeout `d` iff `avail ≤ d`. -/

/-- Embeds the `MAX_WAIT` initial value (code_lock.rs 28-29):
`Duration::from_secs(60)` in milliseconds. -/
def defaultMaxWait : Nat := 60 * 1000

/-- Embeds `set_max_wait` (code_lock.rs 49-51):
`MAX_WAIT.lock().replace(max_wait)` — the single global maximum is
replaced by the argument. -/
def setMaxWait (_state d : Nat) : Nat := d

/-- Embeds `wait_duration` (code_lock.rs 53-55): read the current global
maximum. -/
def waitDuration (state : Nat) : Nat := state

/-- Embeds `try_read_recursive_for` / `try_write_for`: the bounded
acquisition succeeds iff the lock becomes available within the
timeout. -/
def tryLockForMs (avail timeout : Nat) : Bool := avail ≤ timeout

/-- Embeds `check_new_key` (code_lock.rs 57-73): probe the registry under
the read lock, bounded by `wait_duration()` — `.expect` panics
(`Except.error`) on timeout; only if the key is absent, take the write
lock under the same bound and insert via `entry().or_default()`. -/
def checkNewKey (state readAvail writeAvail : Nat)
    (registry : List String) (name : String) : Except String (List String) :=
  if tryLockForMs readAvail (waitDuration state) then
    if registry.contains name then Except.ok registry
    else
      if tryLockForMs writeAvail (waitDuration state) then
        Except.ok (if registry.contains name then registry
          else registry ++ [name])
      else Except.error "write lock did not work"
  else Except.error "read lock did not work"

/-- C10: both structural acquisitions in `check_new_key` are bounded by the
single global maximum wait, which defaults to 60 seconds; `set_max_wait`
replaces that global maximum, the last write winning over any earlier
ones; and whenever the read or write lock is not obtained within the
maximum, the call panics instead of waiting longer — otherwise the key is
registered (exactly once) and the call succeeds. -/
theorem checkNewKey_bounded_by_global_max (state : Nat) (ds : List Nat)
    (ra wa : Nat) (reg : List String) (name : String) :
    waitDuration defaultMaxWait = 60 * 1000 ∧
    waitDuration (ds.foldl setMaxWait state) = ds.getLastD state ∧
    (waitDuration state < ra →
      checkNewKey state ra wa reg name = Except.error "read lock did not work") ∧
    (ra ≤ waitDuration state → reg.contains name = true →
      checkNewKey state ra wa reg name = Except.ok reg) ∧
    (ra ≤ waitDuration state → reg.contains name = false →
      waitDuration state < wa →
      checkNewKey state ra wa reg name = Except.error "write lock did not work") ∧
    (ra ≤ waitDuration state → reg.contains name = false →
      wa ≤ waitDuration state →
      checkNewKey state ra wa reg name = Except.ok (reg ++ [name])) := by
  refine ⟨rfl, ?_, ?_, ?_, ?_, ?_⟩
  · induction ds generalizing state with
    | nil => rfl
    | cons d ds ih =>
      rw [List.foldl_cons]
      show waitDuration (ds.foldl setMaxWait (setMaxWait state d)) =
        (d :: ds).getLastD state
      rw [List.getLastD_cons]
      exact ih d
  · intro hra
    have hf : tryLockForMs ra (waitDuration state) = false := by
      simp [tryLockForMs]
      omega
    simp [checkNewKey, hf]
  · intro hra hmem
    have ht : tryLockForMs ra (waitDuration state) = true := by
      simpa [tryLockForMs] using hra
    have hmem' : name ∈ reg := by simpa using hmem
    simp [checkNewKey, ht, hmem']
  · intro hra hmem hwa
    have h1 : tryLockForMs ra (waitDuration state) = true := by
      simpa [tryLockForMs] using hra
    have h2 : tryLockForMs wa (waitDuration state) = false := by
      simp [tryLockForMs]
      omega
    have hmem' : name ∉ reg := by simpa using hmem
    simp [checkNewKey, h1, h2, hmem']
  · intro hra hmem hwa
    have h1 : tryLockForMs ra (waitDuration state) = true := by
      simpa [tryLockForMs] using hra
    have h2 : tryLockForMs wa (waitDuration state) = true := by
      simpa [tryLockForMs] using hwa
    have hmem' : name ∉ reg := by simpa using hmem
    simp [checkNewKey, h1, h2, hmem']

/-- Witness for C10: with the maximum at 5 ms, a read lock available only
after 10 ms makes `check_new_key` panic, and a later `set_max_wait(30)`
overrides an earlier `set_max_wait(7)`. -/
theorem checkNewKey_bounded_by_global_max_witness :
    checkNewKey 5 10 0 [] "k" = Except.error "read lock did not work" ∧
    waitDuration ([7, 30].foldl setMaxWait defaultMaxWait) = [7, 30].getLastD defaultMaxWait :=
  ⟨(checkNewKey_bounded_by_global_max 5 [] 10 0 [] "k").2.2.1 (by decide),
   (checkNewKey_bounded_by_global_max defaultMaxWait [7, 30] 0 0 [] "k").2.1⟩

end SerialTest
